import Mathlib

/-!
# Verification of the multi-strategy eBay sold-listings search engine

Shallow embedding of `src/app/api/ebay-search/route.ts`.

Modelling conventions:

* JavaScript strings are Lean `String`s; the case-insensitive operations of the
  source (`toLowerCase`, `split(/\s+/)`, `includes`) are modelled on the
  underlying character lists (`jsLower`, `jsSplitWs`, `hasSub`), with ASCII
  lowercasing.
* Dates (`endDate`, `Date.now()`) are epoch milliseconds, as `Int` (the source
  parses its date strings with `new Date(...).getTime()`; we embed the parsed
  value directly).
* The source's floating point relevance score is a real number of the form
  `k - min(daysOld - 60, 10)` with `k : ℤ` and `daysOld = ageMs / 86400000`;
  we represent it exactly as the integer `86400000 * score`
  (`relevanceScoreScaled`), and recover the source's value as the rational
  `relevanceScore = relevanceScoreScaled / 86400000`.  All comparisons the
  source performs on scores (`> 3`, `|a-b| < 2`, sign of a difference) are
  scaled accordingly, which preserves them exactly.
* `Array.prototype.sort` (stable since ES2019) is modelled as a stable
  top-down merge sort (`jsSort`), written with explicit fuel so that it is
  structurally recursive and kernel-evaluable.
* The network call `searchEbaySoldListings` is abstracted by an oracle
  `fetch : String → Option (List EbayListing)` giving, per strategy, the
  parsed listings of the marketplace response (`none` models a thrown
  error: network failure, timeout or malformed response).  The in-process
  scoring/sorting step `filterAndSortListings` that the source applies to the
  parsed response is part of the model.
* Prices are exact rationals (the source uses JS numbers).
-/

namespace ProductSourcer

/-- Milliseconds per day (`1000 * 60 * 60 * 24` in the source). -/
def dayMs : Int := 86400000

/-- Structure `EbayListing` from `src/types/api.ts` (fields used by the route;
`endDate` is the parsed epoch-millisecond sale end time). -/
structure EbayListing where
  title : String
  price : ℚ
  currency : String
  condition : String
  endDate : Int
  url : String
  imageUrl : Option String := none
  shippingCost : Option ℚ := none
  listingType : String := "auction"
  deriving DecidableEq, Repr

/-- Structure `EbaySearchRequest` from `src/types/api.ts`. -/
structure EbaySearchRequest where
  keywords : List String
  brandName : Option String := none
  modelNumber : Option String := none
  limit : Option Nat := none
  deriving DecidableEq, Repr

/-- Structure `EbaySearchResponse` from `src/types/api.ts`, together with the HTTP
status code the route attaches to it. -/
structure EbaySearchResponse where
  success : Bool
  listings : List EbayListing := []
  averagePrice : ℚ := 0
  minPrice : ℚ := 0
  maxPrice : ℚ := 0
  totalFound : Nat := 0
  searchStrategy : String := ""
  searchKeywords : List String := []
  error : Option String := none
  status : Nat := 200
  deriving DecidableEq, Repr

/-- JavaScript `s.toLowerCase()` on the character list (ASCII lowering). -/
def jsLower (s : String) : List Char := s.data.map Char.toLower

/-- JavaScript `hay.includes(needle)`: contiguous substring test on character lists. -/
def hasSub : List Char → List Char → Bool
  | hay, needle =>
    if needle.isPrefixOf hay then true
    else
      match hay with
      | [] => false
      | _ :: t => hasSub t needle

/-- Auxiliary splitter: accumulates the current word (reversed). -/
def splitWsAux : List Char → List Char → List (List Char)
  | [], acc => [acc.reverse]
  | c :: cs, acc =>
    if c.isWhitespace then acc.reverse :: splitWsAux cs []
    else splitWsAux cs (c :: acc)

/-- JavaScript `query.split(/\s+/)` on a character list.  (Unlike JS this keeps an empty
piece between consecutive whitespace characters; empty pieces have length 0
and are ignored by the scorer, which only looks at words of length > 2.) -/
def jsSplitWs (s : List Char) : List (List Char) := splitWsAux s []

/-- JavaScript `parts.join(sep)` of `Array.prototype.join`. -/
def jsJoin (sep : String) : List String → String
  | [] => ""
  | [x] => x
  | x :: xs => x ++ sep ++ jsJoin sep xs

/-- After zero or more further letters, a digit follows. -/
def digitAfterLetters : List Char → Bool
  | [] => false
  | c :: cs => if c.isDigit then true else c.isAlpha && digitAfterLetters cs

/-- At least one letter, then a digit (`/^[a-z]+\d+/i`, with backtracking). -/
def lettersThenDigit : List Char → Bool
  | [] => false
  | c :: cs => c.isAlpha && digitAfterLetters cs

/-- After zero or more further digits, a letter follows. -/
def letterAfterDigits : List Char → Bool
  | [] => false
  | c :: cs => if c.isAlpha then true else c.isDigit && letterAfterDigits cs

/-- At least one digit, then a letter (`/^\d+[a-z]+/i`, with backtracking). -/
def digitsThenLetter : List Char → Bool
  | [] => false
  | c :: cs => c.isDigit && letterAfterDigits cs

/-- The test `word.match(/^[a-z]+\d+|^\d+[a-z]+/i)` as a Boolean: one or more (ASCII)
letters followed by a digit, or one or more digits followed by a letter,
anchored at the start of the word. -/
def modelNumberShape (w : List Char) : Bool :=
  lettersThenDigit w || digitsThenLetter w

/-- The loop body of the word-match scoring inside `filterAndSortListings`
(scaled by `dayMs`): for a word of length > 2, add `len * dayMs` when the
lowercased title contains it, and another `2 * len * dayMs` when it also
matches the model-number shape. -/
def wordScoreStep (titleLower : List Char) (score : Int) (word : List Char) : Int :=
  if 2 < word.length then
    let score := if hasSub titleLower word then score + word.length * dayMs else score
    if modelNumberShape word && hasSub titleLower word then
      score + word.length * dayMs * 2
    else score
  else score

/-- The relevance score of one listing for one query, scaled by `dayMs`
(so `86400000 *` the real-valued score computed inside
`filterAndSortListings` in the source). -/
def relevanceScoreScaled (listing : EbayListing) (query : String) (now : Int) : Int :=
  let queryWords := jsSplitWs (jsLower query)
  let titleLower := jsLower listing.title
  -- Exact word matches in title (longer words are more significant);
  -- model numbers count double on top of the base contribution.
  let wordScore : Int := queryWords.foldl (wordScoreStep titleLower) 0
  -- Bonus for good condition.
  let condLower := jsLower listing.condition
  let condScore : Int :=
    if hasSub condLower "new".data then wordScore + 5 * dayMs
    else if hasSub condLower "excellent".data then wordScore + 3 * dayMs
    else wordScore
  -- Penalty for very old listings (more than 60 days):
  -- `daysOld = (now - endDate) / dayMs`, penalty `min (daysOld - 60) 10`,
  -- which scaled by `dayMs` is `min (ageMs - 60 * dayMs) (10 * dayMs)`.
  let ageMs := now - listing.endDate
  if 60 * dayMs < ageMs then condScore - min (ageMs - 60 * dayMs) (10 * dayMs)
  else condScore

/-- The source's real-valued relevance score (a rational):
`relevanceScoreScaled / 86400000`. -/
def relevanceScore (listing : EbayListing) (query : String) (now : Int) : ℚ :=
  (relevanceScoreScaled listing query now : ℚ) / (dayMs : ℚ)

/-- The ephemeral pairing of a listing with its relevance score
(`{ ...listing, relevanceScore }` in the source; the score is stored in the
scaled integer representation). -/
structure ScoredListing where
  listing : EbayListing
  relevanceScore : Int
  deriving DecidableEq, Repr

/-- The sort comparator of `filterAndSortListings`: if the two scores are
within 2 of each other (`2 * dayMs` scaled), compare by more recent end
date, otherwise by descending score.  Only the sign of the result is used. -/
def compareScored (a b : ScoredListing) : Int :=
  if |a.relevanceScore - b.relevanceScore| < 2 * dayMs then
    b.listing.endDate - a.listing.endDate
  else
    b.relevanceScore - a.relevanceScore

/-- Whether `a` may be placed before `b` by the sort (comparator result ≤ 0). -/
def scoredLE (a b : ScoredListing) : Bool := compareScored a b ≤ 0

/-- Stable merge of two runs (the classical merge, with fuel to keep the
recursion structural; `mergeRuns` supplies enough fuel). -/
def mergeFuel (le : α → α → Bool) : Nat → List α → List α → List α
  | 0, xs, ys => xs ++ ys
  | _ + 1, [], ys => ys
  | _ + 1, x :: xs, [] => x :: xs
  | n + 1, x :: xs, y :: ys =>
    if le x y then x :: mergeFuel le n xs (y :: ys)
    else y :: mergeFuel le n (x :: xs) ys

/-- Stable merge of two runs. -/
def mergeRuns (le : α → α → Bool) (xs ys : List α) : List α :=
  mergeFuel le (xs.length + ys.length) xs ys

/-- Stable top-down merge sort, with fuel (`jsSort` supplies enough). -/
def mergeSortFuel (le : α → α → Bool) : Nat → List α → List α
  | _, [] => []
  | _, [a] => [a]
  | 0, a :: b :: l => a :: b :: l
  | n + 1, a :: b :: l =>
    let h := (a :: b :: l).length
    mergeRuns le
      (mergeSortFuel le n ((a :: b :: l).take ((h + 1) / 2)))
      (mergeSortFuel le n ((a :: b :: l).drop ((h + 1) / 2)))

/-- JavaScript `Array.prototype.sort(cmp)`: a stable sort with respect to
`le a b = (cmp a b ≤ 0)`. -/
def jsSort (le : α → α → Bool) (l : List α) : List α :=
  mergeSortFuel le l.length l

/-- The two brand-anchored strategies, which apply the strict relevance
floor (`score > 3`). -/
def strictStrategies : List String := ["exact_brand_model", "brand_with_keywords"]

/-- Function `filterAndSortListings` from the route: score each listing against the
query words, for the two brand-anchored strategies discard listings with
score ≤ 3, sort by the comparator, and strip the ephemeral score. -/
def filterAndSortListings (listings : List EbayListing) (strategy query : Option String)
    (now : Int) : List EbayListing :=
  match strategy, query with
  | some strategy, some query =>
    -- JS: `if (!strategy || !query) return listings;` (empty strings are falsy)
    if strategy = "" ∨ query = "" then listings
    else
      let scoredListings := listings.map
        (fun listing => ScoredListing.mk listing (relevanceScoreScaled listing query now))
      let filteredListings :=
        if strategy = "exact_brand_model" ∨ strategy = "brand_with_keywords" then
          scoredListings.filter (fun s => 3 * dayMs < s.relevanceScore)
        else scoredListings
      (jsSort scoredLE filteredListings).map (fun s => s.listing)
  | _, _ => listings

/-- Function `getQualityThreshold` from the route. -/
def getQualityThreshold (strategy : String) : Nat :=
  if strategy = "exact_brand_model" then 2
  else if strategy = "brand_with_keywords" then 3
  else if strategy = "model_with_keywords" then 3
  else if strategy = "keywords_only" then 5
  else if strategy = "category_search" then 4
  else if strategy = "partial_match" then 8
  else if strategy = "fuzzy_search" then 6
  else 3

/-- The fixed strategy priority order (`searchStrategies` in `POST`, equal to
`strategyPriority` in `combineSearchResults`). -/
def searchStrategies : List String :=
  ["exact_brand_model", "brand_with_keywords", "model_with_keywords", "keywords_only",
   "category_search", "partial_match", "fuzzy_search"]

/-- The category vocabulary of the `category_search` strategy. -/
def categoryVocabulary : List String :=
  ["phone", "laptop", "tablet", "gaming", "console", "camera", "headphones"]

/-- Function `buildSearchQuery` from the route: `(query, keywords)`. -/
def buildSearchQuery (request : EbaySearchRequest) (strategy : String) :
    String × List String :=
  let keywords := request.keywords
  if strategy = "exact_brand_model" then
    let exactParts := (request.brandName.toList ++ request.modelNumber.toList)
      ++ keywords.take 1
    (jsJoin " " exactParts, exactParts)
  else if strategy = "brand_with_keywords" then
    let brandParts := request.brandName.toList ++ keywords.take 2
    (jsJoin " " brandParts, brandParts)
  else if strategy = "model_with_keywords" then
    let modelParts := request.modelNumber.toList ++ keywords.take 2
    (jsJoin " " modelParts, modelParts)
  else if strategy = "keywords_only" then
    let keywordParts := keywords.take 3
    (jsJoin " " keywordParts, keywordParts)
  else if strategy = "category_search" then
    let categoryTerms := keywords.filter (fun kw => categoryVocabulary.contains (String.mk (jsLower kw)))
    let searchTerms := if categoryTerms ≠ [] then categoryTerms else keywords.take 2
    let searchTerms :=
      match request.brandName with
      | some brand => if categoryTerms ≠ [] then brand :: searchTerms else searchTerms
      | none => searchTerms
    (jsJoin " " searchTerms, searchTerms)
  else if strategy = "partial_match" then
    (keywords.headD "", [keywords.headD ""])
  else if strategy = "fuzzy_search" then
    let fuzzyTerms :=
      match request.brandName with
      | some brand =>
        brand :: (if String.mk (jsLower brand) = "apple" then ["iphone", "ipad"]
          else if String.mk (jsLower brand) = "samsung" then ["galaxy"] else [])
      | none => []
    let fuzzyTerms := fuzzyTerms ++ keywords.take 1
    (jsJoin " " fuzzyTerms, fuzzyTerms)
  else
    (jsJoin " " keywords, keywords)

/-- One step of the accumulation loop inside `combineSearchResults`: the pair
is `(combinedListings, seenUrls)`. -/
def combineStep (acc : List EbayListing × List String) (listing : EbayListing) :
    List EbayListing × List String :=
  if ¬ acc.2.contains listing.url ∧ acc.1.length < 20 then
    (acc.1 ++ [listing], acc.2 ++ [listing.url])
  else acc

/-- Function `combineSearchResults` from the route: walk the strategies in priority
order, appending each strategy's listings while skipping already-seen URLs
and stopping at 20 entries.  (`originalKeywords` is accepted and ignored,
exactly as in the source.) -/
def combineSearchResults (fallbackResults : List (String × List EbayListing))
    (_originalKeywords : List String) : List EbayListing :=
  (searchStrategies.foldl
    (fun acc strategy => ((fallbackResults.lookup strategy).getD []).foldl combineStep acc)
    ([], [])).1

/-- The scoring/sorting part of `searchEbaySoldListings` applied to the
oracle's parsed response for one strategy (`none` = the call threw). -/
def searchSoldListings (fetch : String → Option (List EbayListing))
    (body : EbaySearchRequest) (now : Int) (strategy : String) :
    Option (List EbayListing) :=
  (fetch strategy).map (fun raw =>
    filterAndSortListings raw (some strategy) (some (buildSearchQuery body strategy).1) now)

/-- The mutable state of the strategy loop in `POST`. -/
structure SearchLoopState where
  bestResults : List EbayListing := []
  usedStrategy : String := ""
  searchKeywords : List String := []
  fallbackResults : List (String × List EbayListing) := []
  deriving DecidableEq, Repr

/-- One iteration of the strategy loop of `POST` on `strategy`; the Boolean
is `true` when the loop `break`s (quality threshold reached). -/
def runStrategyStep (body : EbaySearchRequest) (fetch : String → Option (List EbayListing))
    (now : Int) (st : SearchLoopState) (strategy : String) : SearchLoopState × Bool :=
  let searchQuery := buildSearchQuery body strategy
  let st := { st with searchKeywords := searchQuery.2 }
  match searchSoldListings fetch body now strategy with
  | none => (st, false)  -- catch: log and continue
  | some listings =>
    let st := { st with fallbackResults := st.fallbackResults ++ [(strategy, listings)] }
    if getQualityThreshold strategy ≤ listings.length then
      ({ st with bestResults := listings, usedStrategy := strategy }, true)
    else if st.bestResults.length < listings.length then
      ({ st with bestResults := listings, usedStrategy := strategy }, false)
    else (st, false)

/-- The strategy loop of `POST` over a list of strategies.  Returns the final
state and the list of strategies whose network call was issued. -/
def runStrategyLoop (body : EbaySearchRequest) (fetch : String → Option (List EbayListing))
    (now : Int) : List String → SearchLoopState → SearchLoopState × List String
  | [], st => (st, [])
  | s :: rest, st =>
    let r := runStrategyStep body fetch now st s
    if r.2 then (r.1, [s])
    else
      let rr := runStrategyLoop body fetch now rest r.1
      (rr.1, s :: rr.2)

/-- JavaScript `Math.round(q)`: the floor of `q + 1/2`. -/
def jsRound (q : ℚ) : ℤ := ⌊q + 1 / 2⌋

/-- JavaScript `Math.min(...prices)` over a spread list (0 is never used: the source
guards with `prices.length > 0`). -/
def jsMathMin : List ℚ → ℚ
  | [] => 0
  | p :: ps => ps.foldl min p

/-- JavaScript `Math.max(...prices)`. -/
def jsMathMax : List ℚ → ℚ
  | [] => 0
  | p :: ps => ps.foldl max p

/-- The response construction of `POST` (lines 85–114): price statistics over
the positive prices of the final listing set, or the `no_results` response
when it is empty. -/
def buildResponse (bestResults : List EbayListing) (usedStrategy : String)
    (searchKeywords : List String) : EbaySearchResponse :=
  if bestResults.length = 0 then
    { success := true, listings := [], averagePrice := 0, minPrice := 0, maxPrice := 0,
      totalFound := 0, searchStrategy := "no_results", searchKeywords := searchKeywords,
      error := some "No matching listings found", status := 200 }
  else
    let prices := (bestResults.map (fun l => l.price)).filter (fun p => 0 < p)
    let averagePrice : ℚ :=
      if 0 < prices.length then prices.foldl (· + ·) 0 / (prices.length : ℚ) else 0
    let minPrice : ℚ := if 0 < prices.length then jsMathMin prices else 0
    let maxPrice : ℚ := if 0 < prices.length then jsMathMax prices else 0
    { success := true, listings := bestResults,
      averagePrice := (jsRound (averagePrice * 100) : ℚ) / 100,
      minPrice := minPrice, maxPrice := maxPrice,
      totalFound := bestResults.length, searchStrategy := usedStrategy,
      searchKeywords := searchKeywords, error := none, status := 200 }

/-- A full run of the `POST` handler: the response, the strategies whose
network call was issued, and whether the `combineSearchResults` fallback was
invoked. -/
structure SearchRun where
  response : EbaySearchResponse
  invoked : List String
  combinerInvoked : Bool
  deriving Repr

/-- The `POST` handler of `src/app/api/ebay-search/route.ts`, over the
marketplace oracle `fetch` and the current time `now`. -/
def POST (body : EbaySearchRequest) (fetch : String → Option (List EbayListing))
    (now : Int) : SearchRun :=
  if body.keywords = [] then
    let resp : EbaySearchResponse :=
      { success := false, error := some "No search keywords provided", status := 400 }
    { response := resp, invoked := [], combinerInvoked := false }
  else
    let r := runStrategyLoop body fetch now searchStrategies {}
    let st := r.1
    let combinerInvoked := st.bestResults.length < 3
    let final :=
      if st.bestResults.length < 3 then
        let combinedResults := combineSearchResults st.fallbackResults body.keywords
        if st.bestResults.length < combinedResults.length then
          (combinedResults, "combined_search")
        else (st.bestResults, st.usedStrategy)
      else (st.bestResults, st.usedStrategy)
    { response := buildResponse final.1 final.2 st.searchKeywords,
      invoked := r.2, combinerInvoked := combinerInvoked }

/-- A strategy "succeeds" when its (scored, filtered) listings reach the
quality threshold — the condition on which the loop `break`s. -/
def strategySucceeds (body : EbaySearchRequest) (fetch : String → Option (List EbayListing))
    (now : Int) (strategy : String) : Bool :=
  match searchSoldListings fetch body now strategy with
  | none => false
  | some listings => getQualityThreshold strategy ≤ listings.length

/-- The listings a strategy contributes (`[]` when its network call threw). -/
def strategyResults (body : EbaySearchRequest) (fetch : String → Option (List EbayListing))
    (now : Int) (strategy : String) : List EbayListing :=
  (searchSoldListings fetch body now strategy).getD []

/-- Folding the loop body over a list of strategies, ignoring the break flag
(the trajectory of the loop state while no strategy reaches its threshold). -/
def stepFold (body : EbaySearchRequest) (fetch : String → Option (List EbayListing))
    (now : Int) (st : SearchLoopState) (ss : List String) : SearchLoopState :=
  ss.foldl (fun st s => (runStrategyStep body fetch now st s).1) st

/-! ### Claim-side (specification) definitions, used to state the claims -/

/-- Spec wording (C3): the contribution of a single query token to a
listing's relevance score: `len(token)` if the lowercased title contains the
token, plus `2 * len(token)` more if the token matches the model-number
shape and appears in the title; only tokens of length > 2 contribute. -/
def specTokenContribution (titleLower : List Char) (word : List Char) : ℤ :=
  (if 2 < word.length ∧ hasSub titleLower word = true then (word.length : ℤ) else 0)
    + (if 2 < word.length ∧ modelNumberShape word = true ∧ hasSub titleLower word = true then
        2 * (word.length : ℤ)
      else 0)

/-- Spec wording (C3): +5 if the condition text contains "new", else +3 if
it contains "excellent". -/
def specConditionBonus (condition : String) : ℤ :=
  if hasSub (jsLower condition) "new".data = true then 5
  else if hasSub (jsLower condition) "excellent".data = true then 3
  else 0

/-- The age of a listing in days, `(now - endDate) / 86400000`. -/
def daysOld (listing : EbayListing) (now : Int) : ℚ :=
  ((now - listing.endDate : ℤ) : ℚ) / (dayMs : ℚ)

/-- Spec wording (C3): the age penalty `min (daysOld - 60) 10` for listings
older than 60 days, 0 otherwise. -/
def specAgePenalty (listing : EbayListing) (now : Int) : ℚ :=
  if 60 < daysOld listing now then min (daysOld listing now - 60) 10 else 0

/-- Spec wording (C3): the full relevance score as the claim states it. -/
def specRelevanceScore (listing : EbayListing) (query : String) (now : Int) : ℚ :=
  ((((jsSplitWs (jsLower query)).map (specTokenContribution (jsLower listing.title))).sum : ℤ) : ℚ)
    + (specConditionBonus listing.condition : ℚ) - specAgePenalty listing now

/-- Spec wording (C4): the order the claim asserts between two listings of
the output: descending by relevance score, except that two listings whose
scores differ by less than 2 are ordered by more recent sale end date. -/
def specOrdered (query : String) (now : Int) (a b : EbayListing) : Prop :=
  if |relevanceScore a query now - relevanceScore b query now| < 2 then
    b.endDate ≤ a.endDate
  else relevanceScore b query now ≤ relevanceScore a query now

/-- Spec wording (C6): the positive-price subset of the final listing set. -/
def positivePrices (listings : List EbayListing) : List ℚ :=
  (listings.filter (fun l => 0 < l.price)).map (fun l => l.price)

/-- Spec wording (C5): all per-strategy listings laid out in strategy
priority order (the order in which the combiner considers them). -/
def prioritizedListings (fallbackResults : List (String × List EbayListing)) :
    List EbayListing :=
  (searchStrategies.map (fun s => (fallbackResults.lookup s).getD [])).flatten

/-- The invariant of the `combineSearchResults` accumulation: `processed` is
the part of the prioritized listing sequence already folded, the state is
`(combinedListings, seenUrls)`. -/
def CombineInv (processed : List EbayListing) (st : List EbayListing × List String) : Prop :=
  st.2 = st.1.map (fun l => l.url)
    ∧ (st.1.map (fun l => l.url)).Nodup
    ∧ st.1.length ≤ 20
    ∧ st.1.Sublist processed
    ∧ (∀ l ∈ st.1, processed.find? (fun x => x.url == l.url) = some l)
    ∧ (st.1.length < 20 → ∀ x ∈ processed, x.url ∈ st.2)

/-! ### Concrete data for witnesses and counterexamples -/

/-- Listing "Acme widget alpha", sold for 10, fresh. -/
def listingM1 : EbayListing :=
  { title := "Acme widget alpha", price := 10, currency := "USD", condition := "Used",
    endDate := 0, url := "https://example.com/1" }

/-- Listing "Acme widget beta", sold for 12, fresh. -/
def listingM2 : EbayListing :=
  { title := "Acme widget beta", price := 12, currency := "USD", condition := "Used",
    endDate := 0, url := "https://example.com/2" }

/-- Same URL as `listingM1` but a different title (a lower-priority
duplicate for the combiner). -/
def listingM1dup : EbayListing :=
  { title := "Acme widget alpha (relisted)", price := 11, currency := "USD",
    condition := "Used", endDate := 0, url := "https://example.com/1" }

/-- Request with one keyword and brand/model hints. -/
def bodyAcme1 : EbaySearchRequest :=
  { keywords := ["widget"], brandName := some "Acme", modelNumber := some "X1" }

/-- Request with three keywords and brand/model hints. -/
def bodyAcme3 : EbaySearchRequest :=
  { keywords := ["widget", "gadget", "thing"], brandName := some "Acme",
    modelNumber := some "X1" }

/-- Oracle: `exact_brand_model` returns two listings, every other strategy
throws. -/
def fetchExact2 : String → Option (List EbayListing) :=
  fun s => if s = "exact_brand_model" then some [listingM1, listingM2] else none

/-- Oracle: `exact_brand_model` returns one listing, every other strategy
returns an empty result. -/
def fetchExact1 : String → Option (List EbayListing) :=
  fun s => if s = "exact_brand_model" then some [listingM1] else some []

/-- Oracle: every call throws. -/
def fetchAllFail : String → Option (List EbayListing) :=
  fun _ => none

/-- Counterexample data for C4 (query "aaaa bbb", `now = 0`): score 5 from
the "New" condition, oldest sale of the three. -/
def cexListA : EbayListing :=
  { title := "alpha", price := 10, currency := "USD", condition := "New",
    endDate := -3000000000, url := "https://example.com/a" }

/-- Counterexample data for C4: score 3 (title match "bbb"), newest sale. -/
def cexListB : EbayListing :=
  { title := "bbb thing", price := 10, currency := "USD", condition := "Used",
    endDate := -1000000000, url := "https://example.com/b" }

/-- Counterexample data for C4: score 4 (title match "aaaa"), middle sale. -/
def cexListC : EbayListing :=
  { title := "aaaa thing", price := 10, currency := "USD", condition := "Used",
    endDate := -2000000000, url := "https://example.com/c" }

/-- The spec's C4 example: "Apple iPhone 14 Pro 128GB", ended today
(`now = 7776000000`). -/
def exListingA : EbayListing :=
  { title := "Apple iPhone 14 Pro 128GB", price := 500, currency := "USD",
    condition := "Used", endDate := 7776000000, url := "https://example.com/ia" }

/-- The spec's C4 example: "iPhone Case", ended 90 days before `now`. -/
def exListingB : EbayListing :=
  { title := "iPhone Case", price := 5, currency := "USD", condition := "Used",
    endDate := 0, url := "https://example.com/ib" }

/-- A per-strategy result map with a duplicate URL across strategies, for
exercising the combiner. -/
def fallbackSample : List (String × List EbayListing) :=
  [("brand_with_keywords", [listingM1dup, listingM2]), ("exact_brand_model", [listingM1])]

/-! ## Lemmas: the stable sort -/

theorem mergeFuel_perm (le : α → α → Bool) :
    ∀ (n : Nat) (xs ys : List α), (mergeFuel le n xs ys).Perm (xs ++ ys) := by
  intro n
  induction n with
  | zero => intro xs ys; exact List.Perm.refl _
  | succ n ih =>
    intro xs ys
    match xs, ys with
    | [], ys => simp [mergeFuel]
    | x :: xs, [] => simp [mergeFuel]
    | x :: xs, y :: ys =>
      rw [mergeFuel]
      split
      · exact (ih xs (y :: ys)).cons x
      · exact ((ih (x :: xs) ys).cons y).trans
          ((List.Perm.swap x y (xs ++ ys)).trans ((List.perm_middle.symm.cons x)))

theorem mergeRuns_perm (le : α → α → Bool) (xs ys : List α) :
    (mergeRuns le xs ys).Perm (xs ++ ys) :=
  mergeFuel_perm le _ xs ys

theorem mergeSortFuel_perm (le : α → α → Bool) :
    ∀ (n : Nat) (l : List α), (mergeSortFuel le n l).Perm l := by
  intro n
  induction n with
  | zero =>
    intro l
    match l with
    | [] => simp [mergeSortFuel]
    | [a] => simp [mergeSortFuel]
    | a :: b :: l => rw [mergeSortFuel]

  | succ n ih =>
    intro l
    match l with
    | [] => simp [mergeSortFuel]
    | [a] => simp [mergeSortFuel]
    | a :: b :: l =>
      rw [mergeSortFuel]
      refine (mergeRuns_perm le _ _).trans ?_
      exact ((ih _).append (ih _)).trans (List.Perm.of_eq (List.take_append_drop _ _))

theorem jsSort_perm (le : α → α → Bool) (l : List α) : (jsSort le l).Perm l :=
  mergeSortFuel_perm le l.length l

theorem chain_mergeFuel (le : α → α → Bool)
    (total : ∀ a b, le a b = true ∨ le b a = true) :
    ∀ (n : Nat) (xs ys : List α), xs.length + ys.length ≤ n →
      List.Chain' (fun a b => le a b = true) xs →
      List.Chain' (fun a b => le a b = true) ys →
      List.Chain' (fun a b => le a b = true) (mergeFuel le n xs ys) ∧
        ((mergeFuel le n xs ys).head? = xs.head? ∨ (mergeFuel le n xs ys).head? = ys.head?) := by
  intro n
  induction n with
  | zero =>
    intro xs ys hn hxs hys
    have hx : xs = [] := List.eq_nil_of_length_eq_zero (by omega)
    have hy : ys = [] := List.eq_nil_of_length_eq_zero (by omega)
    subst hx; subst hy
    simp [mergeFuel]
  | succ n ih =>
    intro xs ys hn hxs hys
    match xs, ys with
    | [], ys => simp [mergeFuel, hys]
    | x :: xs, [] => simp [mergeFuel, hxs]
    | x :: xs, y :: ys =>
      rw [mergeFuel]
      by_cases hle : le x y = true
      · rw [if_pos hle]
        have hbound : xs.length + (y :: ys).length ≤ n := by
          simp only [List.length_cons] at hn ⊢; omega
        obtain ⟨hchain, hhead⟩ := ih xs (y :: ys) hbound (List.chain'_cons'.mp hxs).2 hys
        constructor
        · refine List.chain'_cons'.mpr ⟨?_, hchain⟩
          intro z hz
          rcases hhead with h | h
          · exact (List.chain'_cons'.mp hxs).1 z (h ▸ hz)
          · have hzy : y = z := by
              rw [h] at hz; simpa using hz
            exact hzy ▸ hle
        · left; rfl
      · rw [if_neg hle]
        have hyx : le y x = true := by
          rcases total x y with h | h
          · exact absurd h hle
          · exact h
        have hbound : (x :: xs).length + ys.length ≤ n := by
          simp only [List.length_cons] at hn ⊢; omega
        obtain ⟨hchain, hhead⟩ := ih (x :: xs) ys hbound hxs (List.chain'_cons'.mp hys).2
        constructor
        · refine List.chain'_cons'.mpr ⟨?_, hchain⟩
          intro z hz
          rcases hhead with h | h
          · have hzx : x = z := by
              rw [h] at hz; simpa using hz
            exact hzx ▸ hyx
          · exact (List.chain'_cons'.mp hys).1 z (h ▸ hz)
        · right; rfl

theorem chain_mergeRuns (le : α → α → Bool)
    (total : ∀ a b, le a b = true ∨ le b a = true) (xs ys : List α)
    (hxs : List.Chain' (fun a b => le a b = true) xs)
    (hys : List.Chain' (fun a b => le a b = true) ys) :
    List.Chain' (fun a b => le a b = true) (mergeRuns le xs ys) :=
  (chain_mergeFuel le total (xs.length + ys.length) xs ys le_rfl hxs hys).1

theorem chain_mergeSortFuel (le : α → α → Bool)
    (total : ∀ a b, le a b = true ∨ le b a = true) :
    ∀ (n : Nat) (l : List α), l.length ≤ n →
      List.Chain' (fun a b => le a b = true) (mergeSortFuel le n l) := by
  intro n
  induction n with
  | zero =>
    intro l hn
    match l with
    | [] => simp [mergeSortFuel]
    | [a] => simp [mergeSortFuel]
    | a :: b :: l => simp at hn
  | succ n ih =>
    intro l hn
    match l with
    | [] => simp [mergeSortFuel]
    | [a] => simp [mergeSortFuel]
    | a :: b :: l =>
      rw [mergeSortFuel]
      refine chain_mergeRuns le total _ _ (ih _ ?_) (ih _ ?_)
      · simp only [List.length_take, List.length_cons] at *
        omega
      · simp only [List.length_drop, List.length_cons] at *
        omega

theorem chain_jsSort (le : α → α → Bool)
    (total : ∀ a b, le a b = true ∨ le b a = true) (l : List α) :
    List.Chain' (fun a b => le a b = true) (jsSort le l) :=
  chain_mergeSortFuel le total l.length l le_rfl

/-! ## Lemmas: the strategy loop -/

theorem runStrategyStep_snd (body : EbaySearchRequest)
    (fetch : String → Option (List EbayListing)) (now : Int) (st : SearchLoopState)
    (s : String) :
    (runStrategyStep body fetch now st s).2 = strategySucceeds body fetch now s := by
  unfold runStrategyStep strategySucceeds
  cases h : searchSoldListings fetch body now s with
  | none => simp
  | some listings =>
    dsimp only
    by_cases hth : getQualityThreshold s ≤ listings.length
    · simp [hth]
    · rw [if_neg hth]
      split <;> simp [hth]

theorem runStrategyStep_searchKeywords (body : EbaySearchRequest)
    (fetch : String → Option (List EbayListing)) (now : Int) (st : SearchLoopState)
    (s : String) :
    (runStrategyStep body fetch now st s).1.searchKeywords = (buildSearchQuery body s).2 := by
  unfold runStrategyStep
  cases h : searchSoldListings fetch body now s with
  | none => simp
  | some listings =>
    dsimp only
    split
    · rfl
    · split <;> rfl

theorem runStrategyStep_none (body : EbaySearchRequest)
    (fetch : String → Option (List EbayListing)) (now : Int) (st : SearchLoopState)
    (s : String) (h : fetch s = none) :
    runStrategyStep body fetch now st s =
      ({ st with searchKeywords := (buildSearchQuery body s).2 }, false) := by
  unfold runStrategyStep
  have hs : searchSoldListings fetch body now s = none := by
    simp [searchSoldListings, h]
  rw [hs]

theorem runStrategyStep_success (body : EbaySearchRequest)
    (fetch : String → Option (List EbayListing)) (now : Int) (st : SearchLoopState)
    (s : String) (h : strategySucceeds body fetch now s = true) :
    runStrategyStep body fetch now st s =
      ({ st with
          searchKeywords := (buildSearchQuery body s).2,
          fallbackResults := st.fallbackResults ++ [(s, strategyResults body fetch now s)],
          bestResults := strategyResults body fetch now s,
          usedStrategy := s },
        true) := by
  unfold strategySucceeds at h
  unfold runStrategyStep
  cases hs : searchSoldListings fetch body now s with
  | none => rw [hs] at h; simp at h
  | some listings =>
    rw [hs] at h
    have hth : getQualityThreshold s ≤ listings.length := by simpa using h
    have hres : strategyResults body fetch now s = listings := by
      simp [strategyResults, hs]
    simp only [hres, if_pos hth]

theorem strategySucceeds_of_fetch_none (body : EbaySearchRequest)
    (fetch : String → Option (List EbayListing)) (now : Int) (s : String)
    (h : fetch s = none) : strategySucceeds body fetch now s = false := by
  unfold strategySucceeds
  have hs : searchSoldListings fetch body now s = none := by
    simp [searchSoldListings, h]
  rw [hs]

theorem runStrategyLoop_all_fail (body : EbaySearchRequest)
    (fetch : String → Option (List EbayListing)) (now : Int) :
    ∀ (ss : List String) (st : SearchLoopState),
      (∀ s ∈ ss, strategySucceeds body fetch now s = false) →
      runStrategyLoop body fetch now ss st = (stepFold body fetch now st ss, ss) := by
  intro ss
  induction ss with
  | nil => intro st _; rfl
  | cons s rest ih =>
    intro st h
    rw [runStrategyLoop]
    have hs : (runStrategyStep body fetch now st s).2 = false := by
      rw [runStrategyStep_snd]; exact h s (by simp)
    rw [ih _ (fun t ht => h t (by simp [ht]))]
    simp [hs, stepFold]

theorem runStrategyLoop_head_success (body : EbaySearchRequest)
    (fetch : String → Option (List EbayListing)) (now : Int) (s : String)
    (rest : List String) (st : SearchLoopState)
    (h : strategySucceeds body fetch now s = true) :
    runStrategyLoop body fetch now (s :: rest) st =
      ((runStrategyStep body fetch now st s).1, [s]) := by
  rw [runStrategyLoop]
  have hs : (runStrategyStep body fetch now st s).2 = true := by
    rw [runStrategyStep_snd]; exact h
  simp [hs]

theorem runStrategyLoop_app_of_fail (body : EbaySearchRequest)
    (fetch : String → Option (List EbayListing)) (now : Int) :
    ∀ (pre rest : List String) (st : SearchLoopState),
      (∀ s ∈ pre, strategySucceeds body fetch now s = false) →
      runStrategyLoop body fetch now (pre ++ rest) st =
        ((runStrategyLoop body fetch now rest (stepFold body fetch now st pre)).1,
          pre ++ (runStrategyLoop body fetch now rest (stepFold body fetch now st pre)).2) := by
  intro pre
  induction pre with
  | nil => intro rest st _; simp [stepFold]
  | cons s pre ih =>
    intro rest st h
    have hs : (runStrategyStep body fetch now st s).2 = false := by
      rw [runStrategyStep_snd]; exact h s (by simp)
    rw [List.cons_append, runStrategyLoop,
      ih rest _ (fun t ht => h t (by simp [ht]))]
    simp [hs, stepFold]

theorem runStrategyLoop_head_mem (body : EbaySearchRequest)
    (fetch : String → Option (List EbayListing)) (now : Int) (s : String)
    (rest : List String) (st : SearchLoopState) :
    s ∈ (runStrategyLoop body fetch now (s :: rest) st).2 := by
  rw [runStrategyLoop]
  by_cases h : (runStrategyStep body fetch now st s).2 = true <;> simp [h]

theorem stepFold_searchKeywords (body : EbaySearchRequest)
    (fetch : String → Option (List EbayListing)) (now : Int) :
    ∀ (ss : List String) (st : SearchLoopState) (h : ss ≠ []),
      (stepFold body fetch now st ss).searchKeywords =
        (buildSearchQuery body (ss.getLast h)).2 := by
  intro ss
  induction ss with
  | nil => intro st h; exact absurd rfl h
  | cons s rest ih =>
    intro st h
    match rest with
    | [] => simpa [stepFold] using runStrategyStep_searchKeywords body fetch now st s
    | r :: t =>
      have : stepFold body fetch now st (s :: r :: t) =
          stepFold body fetch now ((runStrategyStep body fetch now st s).1) (r :: t) := rfl
      rw [this, ih _ (by simp)]
      rfl

theorem stepFold_of_all_none (body : EbaySearchRequest)
    (fetch : String → Option (List EbayListing)) (now : Int) :
    ∀ (ss : List String) (st : SearchLoopState), (∀ s ∈ ss, fetch s = none) →
      (stepFold body fetch now st ss).bestResults = st.bestResults ∧
        (stepFold body fetch now st ss).usedStrategy = st.usedStrategy ∧
        (stepFold body fetch now st ss).fallbackResults = st.fallbackResults := by
  intro ss
  induction ss with
  | nil => intro st _; exact ⟨rfl, rfl, rfl⟩
  | cons s rest ih =>
    intro st h
    have hstep := runStrategyStep_none body fetch now st s (h s (by simp))
    have : stepFold body fetch now st (s :: rest) =
        stepFold body fetch now ((runStrategyStep body fetch now st s).1) rest := rfl
    rw [this, hstep]
    exact ih _ (fun t ht => h t (by simp [ht]))

theorem buildResponse_searchKeywords (b : List EbayListing) (u : String)
    (k : List String) : (buildResponse b u k).searchKeywords = k := by
  unfold buildResponse
  split <;> rfl

theorem buildResponse_searchStrategy (b : List EbayListing) (u : String)
    (k : List String) (h : b ≠ []) : (buildResponse b u k).searchStrategy = u := by
  unfold buildResponse
  rw [if_neg (by simpa using h)]

theorem buildResponse_nil (u : String) (k : List String) :
    buildResponse [] u k =
      { success := true, listings := [], averagePrice := 0, minPrice := 0, maxPrice := 0,
        totalFound := 0, searchStrategy := "no_results", searchKeywords := k,
        error := some "No matching listings found", status := 200 } := rfl

theorem combineSearchResults_nil (kw : List String) :
    combineSearchResults [] kw = [] := rfl

theorem runStrategyLoop_success_at (body : EbaySearchRequest)
    (fetch : String → Option (List EbayListing)) (now : Int) (st : SearchLoopState)
    (i : Nat) (h : i < searchStrategies.length)
    (hs : strategySucceeds body fetch now searchStrategies[i] = true)
    (hpre : ∀ j (hj : j < i), strategySucceeds body fetch now searchStrategies[j] = false) :
    runStrategyLoop body fetch now searchStrategies st =
      ((runStrategyStep body fetch now
          (stepFold body fetch now st (searchStrategies.take i)) searchStrategies[i]).1,
        searchStrategies.take (i + 1)) := by
  have hsplit : searchStrategies =
      searchStrategies.take i ++ searchStrategies[i] :: searchStrategies.drop (i + 1) := by
    conv_lhs => rw [← List.take_append_drop i searchStrategies]
    rw [List.drop_eq_getElem_cons h]
  have hfail : ∀ t ∈ searchStrategies.take i, strategySucceeds body fetch now t = false := by
    intro t ht
    rw [List.mem_take_iff_getElem] at ht
    obtain ⟨j, hj, rfl⟩ := ht
    exact hpre j (by omega)
  conv_lhs => rw [hsplit]
  rw [runStrategyLoop_app_of_fail body fetch now _ _ st hfail,
    runStrategyLoop_head_success body fetch now _ _ _ hs]
  have htake : searchStrategies.take (i + 1) =
      searchStrategies.take i ++ [searchStrategies[i]] := by
    rw [List.take_succ, List.getElem?_eq_getElem h]
    rfl
  rw [htake]

/-! ## Lemmas: the result combiner -/

theorem combineStep_inv (processed : List EbayListing) (st : List EbayListing × List String)
    (w : EbayListing) (h : CombineInv processed st) :
    CombineInv (processed ++ [w]) (combineStep st w) := by
  obtain ⟨hseen, hnodup, hlen, hsub, hfind, hclosed⟩ := h
  unfold combineStep
  by_cases hcond : ¬ st.2.contains w.url = true ∧ st.1.length < 20
  · rw [if_pos (by simpa using hcond)]
    obtain ⟨hnotseen, hlt⟩ := hcond
    have hwmem : w.url ∉ st.1.map (fun l => l.url) := by
      rw [← hseen]
      intro hmem
      exact hnotseen (by rw [List.contains]; exact List.elem_iff.mpr hmem)
    refine ⟨?_, ?_, ?_, ?_, ?_, ?_⟩
    · simp [hseen]
    · simp only [List.map_append, List.map_cons, List.map_nil]
      rw [List.nodup_append]
      refine ⟨hnodup, List.nodup_singleton _, ?_⟩
      intro a ha hb
      have hbw : a = w.url := by simpa using hb
      exact hwmem (hbw ▸ ha)
    · simp only [List.length_append, List.length_cons, List.length_nil]
      omega
    · exact hsub.append (List.Sublist.refl [w])
    · intro l hl
      rcases List.mem_append.mp hl with hl | hl
      · rw [List.find?_append, hfind l hl]
        rfl
      · have hlw : l = w := by simpa using hl
        subst hlw
        have hnone : processed.find? (fun x => x.url == l.url) = none := by
          rw [List.find?_eq_none]
          intro x hx hbeq
          have hx2 : x.url ∈ st.2 := hclosed hlt x hx
          have : x.url = l.url := by simpa using hbeq
          exact hnotseen (by rw [List.contains]; exact List.elem_iff.mpr (this ▸ hx2))
        rw [List.find?_append, hnone]
        simp
    · intro _ x hx
      rcases List.mem_append.mp hx with hx | hx
      · exact List.mem_append_left _ (hclosed hlt x hx)
      · have hxw : x = w := by simpa using hx
        subst hxw
        simp
  · rw [if_neg (by simpa using hcond)]
    refine ⟨hseen, hnodup, hlen, hsub.trans (List.sublist_append_left processed [w]), ?_, ?_⟩
    · intro l hl
      rw [List.find?_append, hfind l hl]
      rfl
    · intro hlt x hx
      have hcont : st.2.contains w.url = true := by
        rcases not_and_or.mp hcond with hc | hc
        · simpa using hc
        · exact absurd hlt hc
      rcases List.mem_append.mp hx with hx | hx
      · exact hclosed hlt x hx
      · have hxw : x = w := by simpa using hx
        subst hxw
        rw [List.contains] at hcont
        exact List.elem_iff.mp hcont

theorem combineFold_inv :
    ∀ (ws processed : List EbayListing) (st : List EbayListing × List String),
      CombineInv processed st → CombineInv (processed ++ ws) (ws.foldl combineStep st) := by
  intro ws
  induction ws with
  | nil => intro processed st h; simpa using h
  | cons w ws ih =>
    intro processed st h
    have h2 := ih (processed ++ [w]) _ (combineStep_inv processed st w h)
    simpa [List.append_assoc] using h2

theorem combineSearchResults_eq_fold (fb : List (String × List EbayListing))
    (kw : List String) :
    combineSearchResults fb kw = ((prioritizedListings fb).foldl combineStep ([], [])).1 := by
  unfold combineSearchResults prioritizedListings
  rw [List.foldl_flatten, List.foldl_map]

theorem combineSearchResults_inv (fb : List (String × List EbayListing)) :
    CombineInv (prioritizedListings fb)
      ((prioritizedListings fb).foldl combineStep ([], [])) := by
  have h0 : CombineInv [] (([], []) : List EbayListing × List String) := by
    exact ⟨rfl, List.nodup_nil, by simp, List.nil_sublist _, by simp, by simp⟩
  simpa using combineFold_inv (prioritizedListings fb) [] _ h0

theorem combineSearchResults_sublist (fb : List (String × List EbayListing))
    (kw : List String) :
    (combineSearchResults fb kw).Sublist (prioritizedListings fb) := by
  rw [combineSearchResults_eq_fold fb kw]
  exact (combineSearchResults_inv fb).2.2.2.1

/-! ## Lemmas: the relevance score and its rational value -/

theorem dayMs_q_pos : (0 : ℚ) < ((dayMs : ℤ) : ℚ) := by norm_num [dayMs]

theorem dayMs_q_ne : ((dayMs : ℤ) : ℚ) ≠ 0 := ne_of_gt dayMs_q_pos

theorem wordScoreStep_eq (t : List Char) (s : Int) (w : List Char) :
    wordScoreStep t s w = s + dayMs * specTokenContribution t w := by
  unfold wordScoreStep specTokenContribution
  by_cases h1 : 2 < w.length <;> by_cases h2 : hasSub t w = true <;>
    by_cases h3 : modelNumberShape w = true <;>
    simp [h1, h2, h3] <;> ring

theorem wordScore_foldl (t : List Char) :
    ∀ (words : List (List Char)) (s : Int),
      words.foldl (wordScoreStep t) s
        = s + dayMs * (words.map (specTokenContribution t)).sum := by
  intro words
  induction words with
  | nil => intro s; simp
  | cons w ws ih =>
    intro s
    rw [List.foldl_cons, ih, wordScoreStep_eq, List.map_cons, List.sum_cons]
    ring

theorem relevanceScoreScaled_eq (l : EbayListing) (query : String) (now : Int) :
    relevanceScoreScaled l query now =
      dayMs * ((jsSplitWs (jsLower query)).map (specTokenContribution (jsLower l.title))).sum
        + dayMs * specConditionBonus l.condition
        - (if 60 * dayMs < now - l.endDate
            then min (now - l.endDate - 60 * dayMs) (10 * dayMs) else 0) := by
  unfold relevanceScoreScaled specConditionBonus
  dsimp only
  rw [wordScore_foldl]
  split_ifs <;> ring

theorem relevanceScore_eq_spec (l : EbayListing) (q : String) (now : Int) :
    relevanceScore l q now = specRelevanceScore l q now := by
  unfold relevanceScore specRelevanceScore specAgePenalty daysOld
  rw [relevanceScoreScaled_eq]
  have hcond : ((60 : ℚ) < ((now - l.endDate : ℤ) : ℚ) / ((dayMs : ℤ) : ℚ))
      ↔ (60 * dayMs < now - l.endDate) := by
    rw [lt_div_iff₀ dayMs_q_pos]
    constructor
    · intro hx; exact_mod_cast hx
    · intro hx; exact_mod_cast hx
  by_cases hage : 60 * dayMs < now - l.endDate
  · rw [if_pos hage, if_pos (hcond.mpr hage), div_eq_iff dayMs_q_ne]
    push_cast
    rw [sub_mul, add_mul, min_mul_of_nonneg _ _ (le_of_lt dayMs_q_pos), sub_mul,
      div_mul_cancel₀ _ dayMs_q_ne]
    ring
  · rw [if_neg hage, if_neg (fun hx => hage (hcond.mp hx)), div_eq_iff dayMs_q_ne]
    push_cast
    ring

theorem relevanceScore_lt_iff (n : ℤ) (l : EbayListing) (q : String) (now : Int) :
    ((n : ℚ) < relevanceScore l q now) ↔ n * dayMs < relevanceScoreScaled l q now := by
  unfold relevanceScore
  rw [lt_div_iff₀ dayMs_q_pos]
  constructor
  · intro hx; exact_mod_cast hx
  · intro hx; exact_mod_cast hx

theorem relevanceScore_le_iff (a b : EbayListing) (q : String) (now : Int) :
    (relevanceScore a q now ≤ relevanceScore b q now)
      ↔ relevanceScoreScaled a q now ≤ relevanceScoreScaled b q now := by
  unfold relevanceScore
  rw [div_le_div_iff_of_pos_right dayMs_q_pos]
  exact Int.cast_le

theorem relevanceScore_abs_sub_lt_two_iff (a b : EbayListing) (q : String) (now : Int) :
    (|relevanceScore a q now - relevanceScore b q now| < 2)
      ↔ |relevanceScoreScaled a q now - relevanceScoreScaled b q now| < 2 * dayMs := by
  unfold relevanceScore
  rw [div_sub_div_same, abs_div, abs_of_pos dayMs_q_pos, div_lt_iff₀ dayMs_q_pos]
  constructor
  · intro hx
    have hx2 : (|(relevanceScoreScaled a q now - relevanceScoreScaled b q now : ℤ)| : ℚ)
        < ((2 * dayMs : ℤ) : ℚ) := by
      push_cast
      push_cast at hx
      linarith
    exact_mod_cast hx2
  · intro hx
    have hx2 : (|(relevanceScoreScaled a q now - relevanceScoreScaled b q now : ℤ)| : ℚ)
        < ((2 * dayMs : ℤ) : ℚ) := by exact_mod_cast hx
    push_cast at hx2
    linarith

theorem mem_filterAndSort_strict (listings : List EbayListing) (strategy query : String)
    (now : Int) (l : EbayListing)
    (hstrat : strategy = "exact_brand_model" ∨ strategy = "brand_with_keywords")
    (hq : ¬ query = "")
    (hl : l ∈ filterAndSortListings listings (some strategy) (some query) now) :
    3 * dayMs < relevanceScoreScaled l query now := by
  have hsne : ¬ strategy = "" := by
    rcases hstrat with h | h <;> subst h <;> decide
  unfold filterAndSortListings at hl
  dsimp only at hl
  rw [if_neg (by tauto), if_pos hstrat] at hl
  obtain ⟨sc, hsc, hscl⟩ := List.mem_map.mp hl
  have hsc2 := (jsSort_perm scoredLE _).mem_iff.mp hsc
  have hp := (List.mem_filter.mp hsc2).2
  have hmem := (List.mem_filter.mp hsc2).1
  obtain ⟨l0, _, hl0⟩ := List.mem_map.mp hmem
  rw [← hl0] at hp hscl
  simp only [ScoredListing.mk.injEq] at hscl ⊢
  rw [← hscl]
  simpa using hp

/-! ## The claims -/

/-- Claim C1: for every request and marketplace response, if strategy `i` in
the fixed priority order is the first to reach its quality threshold, the
loop stops there: exactly the strategies `0..i` are invoked, the accepted
result is strategy `i`'s; and if every strategy up to `i` stays below its
threshold, strategy `i+1` is invoked next. -/
theorem C1_short_circuit (body : EbaySearchRequest)
    (fetch : String → Option (List EbayListing)) (now : Int) (st : SearchLoopState)
    (i : Nat) (h : i < searchStrategies.length) :
    (strategySucceeds body fetch now searchStrategies[i] = true →
      (∀ j (hj : j < i), strategySucceeds body fetch now searchStrategies[j] = false) →
      (runStrategyLoop body fetch now searchStrategies st).2 = searchStrategies.take (i + 1)
        ∧ (runStrategyLoop body fetch now searchStrategies st).1.usedStrategy
            = searchStrategies[i]
        ∧ (runStrategyLoop body fetch now searchStrategies st).1.bestResults
            = strategyResults body fetch now searchStrategies[i]) ∧
    ((∀ j (hj : j ≤ i), strategySucceeds body fetch now searchStrategies[j] = false) →
      ∀ (h1 : i + 1 < searchStrategies.length),
        searchStrategies[i + 1] ∈ (runStrategyLoop body fetch now searchStrategies st).2) := by
  constructor
  · intro hs hpre
    rw [runStrategyLoop_success_at body fetch now st i h hs hpre]
    rw [runStrategyStep_success body fetch now _ _ hs]
    exact ⟨rfl, rfl, rfl⟩
  · intro hfail h1
    have hsplit : searchStrategies = searchStrategies.take (i + 1)
        ++ searchStrategies[i + 1] :: searchStrategies.drop (i + 2) := by
      conv_lhs => rw [← List.take_append_drop (i + 1) searchStrategies]
      rw [List.drop_eq_getElem_cons h1]
    have hf : ∀ t ∈ searchStrategies.take (i + 1),
        strategySucceeds body fetch now t = false := by
      intro t ht
      rw [List.mem_take_iff_getElem] at ht
      obtain ⟨j, hj, rfl⟩ := ht
      exact hfail j (by omega)
    conv_lhs => rw [hsplit]
    rw [runStrategyLoop_app_of_fail body fetch now _ _ st hf]
    exact List.mem_append_right _ (runStrategyLoop_head_mem body fetch now _ _ _)

/-- Witness for C1: with an oracle where `exact_brand_model` returns 2
listings (threshold 2), only that strategy is invoked; with an oracle where
every call fails, `brand_with_keywords` is invoked after
`exact_brand_model`. -/
theorem C1_short_circuit_witness :
    (runStrategyLoop bodyAcme1 fetchExact2 0 searchStrategies {}).2 = ["exact_brand_model"]
      ∧ "brand_with_keywords" ∈ (runStrategyLoop bodyAcme1 fetchAllFail 0 searchStrategies {}).2 := by
  constructor
  · have h := (C1_short_circuit bodyAcme1 fetchExact2 0 {} 0 (by decide)).1 (by decide)
      (fun j hj => absurd hj (Nat.not_lt_zero j))
    exact h.1
  · exact (C1_short_circuit bodyAcme1 fetchAllFail 0 {} 0 (by decide)).2 (by decide) (by decide)

/-- Claim C7: a request with an empty keyword list is rejected with an
unsuccessful 400 response before any strategy's network call is issued. -/
theorem C7_validation_error (body : EbaySearchRequest)
    (fetch : String → Option (List EbayListing)) (now : Int)
    (h : body.keywords = []) :
    (POST body fetch now).response.success = false
      ∧ (POST body fetch now).response.status = 400
      ∧ (POST body fetch now).response.error = some "No search keywords provided"
      ∧ (POST body fetch now).invoked = [] := by
  simp [POST, h]

/-- Witness for C7. -/
theorem C7_validation_error_witness :
    (({ keywords := [] } : EbaySearchRequest).keywords = [])
      ∧ (POST { keywords := [] } fetchAllFail 0).response.success = false
      ∧ (POST { keywords := [] } fetchAllFail 0).invoked = [] := by
  refine ⟨rfl, ?_, ?_⟩
  · exact (C7_validation_error { keywords := [] } fetchAllFail 0 rfl).1
  · exact (C7_validation_error { keywords := [] } fetchAllFail 0 rfl).2.2.2

/-- Claim C8: a failing marketplace call (network error/timeout/malformed
response, modelled as `fetch s = none`) is absorbed within its own
iteration: the loop state is unchanged apart from `searchKeywords`, the
strategy contributes nothing and the loop continues; and when every call
fails, the request still returns a successful `no_results` response. -/
theorem C8_strategy_failure_isolated (body : EbaySearchRequest)
    (fetch : String → Option (List EbayListing)) (now : Int) :
    (∀ (st : SearchLoopState) (s : String), fetch s = none →
      runStrategyStep body fetch now st s =
        ({ st with searchKeywords := (buildSearchQuery body s).2 }, false)) ∧
    (¬ body.keywords = [] → (∀ s, fetch s = none) →
      (POST body fetch now).response.success = true
        ∧ (POST body fetch now).response.searchStrategy = "no_results"
        ∧ (POST body fetch now).response.totalFound = 0
        ∧ (POST body fetch now).response.listings = []) := by
  constructor
  · intro st s h
    exact runStrategyStep_none body fetch now st s h
  · intro hkw hfail
    have hfails : ∀ s ∈ searchStrategies, strategySucceeds body fetch now s = false :=
      fun s _ => strategySucceeds_of_fetch_none body fetch now s (hfail s)
    have hloop := runStrategyLoop_all_fail body fetch now searchStrategies {} hfails
    have hfold := stepFold_of_all_none body fetch now searchStrategies {} (fun s _ => hfail s)
    simp only [POST, if_neg hkw, hloop]
    simp [hfold.1, hfold.2.1, hfold.2.2, combineSearchResults_nil, buildResponse_nil]

/-- Claim C5: the combiner's output has pairwise distinct URLs, at most 20
entries, is a subsequence of the per-strategy listings laid out in priority
order (so listings are appended by iterating strategies in priority order),
and every listing it keeps is the first occurrence of its URL in that
priority-ordered sequence (first seen, highest-priority strategy wins). -/
theorem C5_combiner_dedup (fb : List (String × List EbayListing)) (kw : List String) :
    ((combineSearchResults fb kw).map (fun l => l.url)).Nodup
      ∧ (combineSearchResults fb kw).length ≤ 20
      ∧ (combineSearchResults fb kw).Sublist (prioritizedListings fb)
      ∧ ∀ l ∈ combineSearchResults fb kw,
          (prioritizedListings fb).find? (fun x => x.url == l.url) = some l := by
  have h := combineSearchResults_inv fb
  rw [combineSearchResults_eq_fold fb kw]
  exact ⟨h.2.1, h.2.2.1, h.2.2.2.1, h.2.2.2.2.1⟩

/-- Witness for C5: a result map where `brand_with_keywords` holds a
lower-priority copy of `exact_brand_model`'s listing under the same URL. -/
theorem C5_combiner_dedup_witness :
    listingM2 ∈ combineSearchResults fallbackSample []
      ∧ (prioritizedListings fallbackSample).find? (fun x => x.url == listingM2.url)
          = some listingM2
      ∧ ((combineSearchResults fallbackSample []).map (fun l => l.url)).Nodup
      ∧ combineSearchResults fallbackSample [] = [listingM1, listingM2] := by
  refine ⟨by decide, ?_, ?_, by decide⟩
  · exact (C5_combiner_dedup fallbackSample []).2.2.2 listingM2 (by decide)
  · exact (C5_combiner_dedup fallbackSample []).1

/-- Every quality threshold is at least 2. -/
theorem two_le_getQualityThreshold (s : String) : 2 ≤ getQualityThreshold s := by
  unfold getQualityThreshold
  split_ifs <;> norm_num

/-- Only the first strategy has threshold 2. -/
theorem threshold_two_at_zero :
    ∀ i, ∀ (h : i < searchStrategies.length),
      getQualityThreshold searchStrategies[i] = 2 → i = 0 := by decide

/-- No strategy in the priority list is named `combined_search`. -/
theorem searchStrategies_ne_combined :
    ∀ i, ∀ (h : i < searchStrategies.length),
      ¬ searchStrategies[i] = "combined_search" := by decide

/-- The prioritized layout of a result map holding only the first
strategy's listings. -/
theorem prioritizedListings_exact_singleton (L : List EbayListing) :
    prioritizedListings [("exact_brand_model", L)] = L := by
  simp only [prioritizedListings, searchStrategies, List.map_cons, List.map_nil,
    List.flatten_cons, List.flatten_nil]
  show L ++ ([] ++ ([] ++ ([] ++ ([] ++ ([] ++ ([] ++ [])))))) = L
  simp

/-- The accepted listings reach the strategy's threshold. -/
theorem strategyResults_length_of_succeeds (body : EbaySearchRequest)
    (fetch : String → Option (List EbayListing)) (now : Int) (s : String)
    (hs : strategySucceeds body fetch now s = true) :
    getQualityThreshold s ≤ (strategyResults body fetch now s).length := by
  unfold strategySucceeds at hs
  cases hsl : searchSoldListings fetch body now s with
  | none => rw [hsl] at hs; simp at hs
  | some listings =>
    rw [hsl] at hs
    have : strategyResults body fetch now s = listings := by simp [strategyResults, hsl]
    rw [this]
    simpa using hs

/-- Claim C2, amended: whenever some strategy `i` is the first to reach its
quality threshold, the returned `searchStrategy` is that strategy's name
and never `combined_search`; however the ResultCombiner can still be
invoked in such a run — it is invoked exactly when the accepted result has
fewer than 3 listings (possible only for `exact_brand_model` succeeding
with exactly 2 listings), and its output never replaces the successful
result. -/
theorem C2_combiner_on_shortfall (body : EbaySearchRequest)
    (fetch : String → Option (List EbayListing)) (now : Int)
    (i : Nat) (h : i < searchStrategies.length)
    (hkw : ¬ body.keywords = [])
    (hs : strategySucceeds body fetch now searchStrategies[i] = true)
    (hpre : ∀ j (hj : j < i), strategySucceeds body fetch now searchStrategies[j] = false) :
    (POST body fetch now).response.searchStrategy = searchStrategies[i]
      ∧ ¬ (POST body fetch now).response.searchStrategy = "combined_search"
      ∧ ((POST body fetch now).combinerInvoked = true ↔
          (strategyResults body fetch now searchStrategies[i]).length < 3) := by
  have hloop := runStrategyLoop_success_at body fetch now {} i h hs hpre
  have hstep := runStrategyStep_success body fetch now
    (stepFold body fetch now {} (searchStrategies.take i)) _ hs
  have hth := strategyResults_length_of_succeeds body fetch now _ hs
  have h2 : 2 ≤ (strategyResults body fetch now searchStrategies[i]).length :=
    le_trans (two_le_getQualityThreshold _) hth
  have hne : strategyResults body fetch now searchStrategies[i] ≠ [] := by
    intro he
    rw [he] at h2
    simp at h2
  have hstrat : ∀ b : List EbayListing, b ≠ [] → ∀ u k,
      (buildResponse b u k).searchStrategy = u := fun b hb u k =>
    buildResponse_searchStrategy b u k hb
  by_cases hlen : (strategyResults body fetch now searchStrategies[i]).length < 3
  · -- The accepted result is short: the combiner runs but cannot win.
    have h2th := two_le_getQualityThreshold searchStrategies[i]
    have hth2 : getQualityThreshold searchStrategies[i] = 2 := by omega
    have hi0 : i = 0 := threshold_two_at_zero i h hth2
    subst hi0
    have hfold : stepFold body fetch now {} (searchStrategies.take 0) = {} := rfl
    rw [hfold] at hloop hstep
    have hC : (combineSearchResults
        ([] ++ [(searchStrategies[0], strategyResults body fetch now searchStrategies[0])])
        body.keywords).length
        ≤ (strategyResults body fetch now searchStrategies[0]).length := by
      have hsub := combineSearchResults_sublist
        ([("exact_brand_model", strategyResults body fetch now searchStrategies[0])])
        body.keywords
      rw [prioritizedListings_exact_singleton] at hsub
      exact hsub.length_le
    simp only [POST, if_neg hkw, hloop, hstep]
    refine ⟨?_, ?_, ?_⟩
    · rw [if_pos hlen, if_neg (by omega), hstrat _ hne]
    · rw [if_pos hlen, if_neg (by omega), hstrat _ hne]
      exact searchStrategies_ne_combined 0 h
    · simp [hlen]
  · simp only [POST, if_neg hkw, hloop, hstep]
    refine ⟨?_, ?_, ?_⟩
    · rw [if_neg hlen, hstrat _ hne]
    · rw [if_neg hlen, hstrat _ hne]
      exact searchStrategies_ne_combined i h
    · simp [hlen]

/-- Counterexample to C2 as stated: with brand "Acme" and keyword
"widget", a marketplace response giving `exact_brand_model` exactly two
listings makes that strategy succeed (threshold 2) and stop the loop, yet
the ResultCombiner is still invoked, because the accepted result has fewer
than 3 listings. -/
theorem C2_counterexample :
    strategySucceeds bodyAcme1 fetchExact2 0 "exact_brand_model" = true
      ∧ (POST bodyAcme1 fetchExact2 0).invoked = ["exact_brand_model"]
      ∧ (POST bodyAcme1 fetchExact2 0).combinerInvoked = true := by
  exact ⟨by decide, by decide, by decide⟩

/-- Witness for the amended C2. -/
theorem C2_combiner_on_shortfall_witness :
    (POST bodyAcme1 fetchExact2 0).response.searchStrategy = "exact_brand_model"
      ∧ ¬ (POST bodyAcme1 fetchExact2 0).response.searchStrategy = "combined_search" := by
  have h := C2_combiner_on_shortfall bodyAcme1 fetchExact2 0 0 (by decide) (by decide)
    (by decide) (fun j hj => absurd hj (Nat.not_lt_zero j))
  exact ⟨h.1, h.2.1⟩

/-- Claim C9, amended: in every response of the search loop, `searchKeywords`
is the token list of the *last* strategy whose query was built: the winning
strategy's tokens when some strategy reaches its threshold, and
`fuzzy_search`'s tokens when the loop exhausts (so in the `Exhausted`,
`combined_search` and `no_results` outcomes the returned tokens are not, in
general, those of the strategy named in `searchStrategy`). -/
theorem C9_searchKeywords_last_built (body : EbaySearchRequest)
    (fetch : String → Option (List EbayListing)) (now : Int)
    (hkw : ¬ body.keywords = []) :
    (∀ i, ∀ (h : i < searchStrategies.length),
      strategySucceeds body fetch now searchStrategies[i] = true →
      (∀ j (hj : j < i), strategySucceeds body fetch now searchStrategies[j] = false) →
      (POST body fetch now).response.searchKeywords
        = (buildSearchQuery body searchStrategies[i]).2)
    ∧ ((∀ s ∈ searchStrategies, strategySucceeds body fetch now s = false) →
        (POST body fetch now).response.searchKeywords
          = (buildSearchQuery body "fuzzy_search").2) := by
  constructor
  · intro i h hs hpre
    have hloop := runStrategyLoop_success_at body fetch now {} i h hs hpre
    simp only [POST, if_neg hkw, hloop]
    rw [buildResponse_searchKeywords]
    exact runStrategyStep_searchKeywords body fetch now _ _
  · intro hfail
    have hloop := runStrategyLoop_all_fail body fetch now searchStrategies {} hfail
    simp only [POST, if_neg hkw, hloop]
    rw [buildResponse_searchKeywords]
    exact stepFold_searchKeywords body fetch now searchStrategies {} (by decide)

/-- Counterexample to C9 as stated: `exact_brand_model` wins with one
listing after the loop exhausts (best result kept), but the returned
`searchKeywords` are the tokens of `fuzzy_search`'s query — not those used
by the winning strategy. -/
theorem C9_counterexample :
    (POST bodyAcme3 fetchExact1 0).response.success = true
      ∧ (POST bodyAcme3 fetchExact1 0).response.searchStrategy = "exact_brand_model"
      ∧ (POST bodyAcme3 fetchExact1 0).response.searchKeywords = ["Acme", "widget"]
      ∧ (buildSearchQuery bodyAcme3 "exact_brand_model").2 = ["Acme", "X1", "widget"]
      ∧ ¬ ((["Acme", "widget"] : List String) = ["Acme", "X1", "widget"]) := by
  exact ⟨by decide, by decide, by decide, by decide, by decide⟩

/-- Witness for the amended C9. -/
theorem C9_searchKeywords_last_built_witness :
    (POST bodyAcme1 fetchExact2 0).response.searchKeywords
        = (buildSearchQuery bodyAcme1 "exact_brand_model").2
      ∧ (POST bodyAcme1 fetchAllFail 0).response.searchKeywords
          = (buildSearchQuery bodyAcme1 "fuzzy_search").2 := by
  constructor
  · exact (C9_searchKeywords_last_built bodyAcme1 fetchExact2 0 (by decide)).1 0
      (by decide) (by decide) (fun j hj => absurd hj (Nat.not_lt_zero j))
  · exact (C9_searchKeywords_last_built bodyAcme1 fetchAllFail 0 (by decide)).2 (by decide)

/-- Claim C3: the relevance score equals the spec's formula — the sum over
query tokens of length > 2 of `len(token)` when the lowercased title
contains the token plus another `2 * len(token)` when the token also has
the model-number shape, plus 5 for a condition containing "new" (else 3
for "excellent"), minus `min (daysOld - 60) 10` for listings older than 60
days; and for the two brand-anchored strategies every listing kept in the
output scores strictly more than 3. -/
theorem C3_relevance_formula :
    (∀ (l : EbayListing) (query : String) (now : Int),
      relevanceScore l query now = specRelevanceScore l query now)
    ∧ (∀ (listings : List EbayListing) (strategy query : String) (now : Int)
        (l : EbayListing), strategy ∈ strictStrategies → ¬ query = "" →
        l ∈ filterAndSortListings listings (some strategy) (some query) now →
        3 < specRelevanceScore l query now) := by
  constructor
  · exact relevanceScore_eq_spec
  · intro listings strategy query now l hst hq hl
    have hstrat : strategy = "exact_brand_model" ∨ strategy = "brand_with_keywords" := by
      simpa [strictStrategies] using hst
    have h3 := mem_filterAndSort_strict listings strategy query now l hstrat hq hl
    rw [← relevanceScore_eq_spec, show (3 : ℚ) = ((3 : ℤ) : ℚ) by norm_num,
      relevanceScore_lt_iff]
    exact h3

/-- Witness for C3: a brand-anchored search keeping a listing that scores
10 (tokens "acme" and "widget" both match the title). -/
theorem C3_relevance_formula_witness :
    ("exact_brand_model" ∈ strictStrategies)
      ∧ ¬ ("Acme X1 widget" = "")
      ∧ listingM1 ∈ filterAndSortListings [listingM1] (some "exact_brand_model")
          (some "Acme X1 widget") 0
      ∧ 3 < specRelevanceScore listingM1 "Acme X1 widget" 0
      ∧ relevanceScore listingM1 "Acme X1 widget" 0
          = specRelevanceScore listingM1 "Acme X1 widget" 0 := by
  refine ⟨by decide, by decide, by decide, ?_, ?_⟩
  · exact C3_relevance_formula.2 [listingM1] "exact_brand_model" "Acme X1 widget" 0
      listingM1 (by decide) (by decide) (by decide)
  · exact C3_relevance_formula.1 listingM1 "Acme X1 widget" 0

/-- Claim C10: scoring and sorting neither drops, adds nor modifies listings:
for every strategy other than the two brand-anchored ones the output of
`filterAndSortListings` is a permutation of its input, and for the two
brand-anchored strategies a permutation of the sublist of input listings
whose relevance score exceeds 3; either way the transient score is
stripped, so the output elements are exactly original listings. -/
theorem C10_sort_permutation (listings : List EbayListing) (strategy query : String)
    (now : Int) (hs : ¬ strategy = "") (hq : ¬ query = "") :
    (filterAndSortListings listings (some strategy) (some query) now).Perm
      (if strategy ∈ strictStrategies then
        listings.filter (fun l => decide (3 < relevanceScore l query now))
      else listings) := by
  unfold filterAndSortListings
  dsimp only
  rw [if_neg (by tauto)]
  have hmem : (strategy = "exact_brand_model" ∨ strategy = "brand_with_keywords")
      ↔ strategy ∈ strictStrategies := by simp [strictStrategies]
  have hcomp : ((fun s => s.listing) ∘
      (fun listing => ScoredListing.mk listing (relevanceScoreScaled listing query now)))
      = id := rfl
  by_cases hstrat : strategy ∈ strictStrategies
  · rw [if_pos (hmem.mpr hstrat), if_pos hstrat]
    refine ((jsSort_perm scoredLE _).map _).trans (List.Perm.of_eq ?_)
    rw [List.filter_map, List.map_map, hcomp, List.map_id]
    refine List.filter_congr ?_
    intro x _
    simp only [Function.comp]
    rw [decide_eq_decide, show (3 : ℚ) = ((3 : ℤ) : ℚ) by norm_num,
      relevanceScore_lt_iff]
  · rw [if_neg (fun hx => hstrat (hmem.mp hx)), if_neg hstrat]
    refine ((jsSort_perm scoredLE _).map _).trans (List.Perm.of_eq ?_)
    rw [List.map_map, hcomp, List.map_id]

/-- Witness for C10: a non-brand strategy permutes its input unchanged. -/
theorem C10_sort_permutation_witness :
    (filterAndSortListings [cexListA, cexListB, cexListC] (some "keywords_only")
        (some "aaaa bbb") 0).Perm
      (if "keywords_only" ∈ strictStrategies then
        [cexListA, cexListB, cexListC].filter
          (fun l => decide (3 < relevanceScore l "aaaa bbb" 0))
      else [cexListA, cexListB, cexListC]) :=
  C10_sort_permutation [cexListA, cexListB, cexListC] "keywords_only" "aaaa bbb" 0
    (by decide) (by decide)

/-- The comparator is antisymmetric in sign. -/
theorem compareScored_antisymm (a b : ScoredListing) :
    compareScored a b = -compareScored b a := by
  unfold compareScored
  rw [abs_sub_comm]
  split_ifs <;> ring

/-- The comparator order is total. -/
theorem scoredLE_total (a b : ScoredListing) :
    scoredLE a b = true ∨ scoredLE b a = true := by
  unfold scoredLE
  rcases le_total (compareScored a b) 0 with h | h
  · left; simpa using h
  · right
    have h2 : compareScored b a ≤ 0 := by
      rw [compareScored_antisymm b a]
      omega
    simpa using h2

/-- A `Chain'` transfers along a pointwise implication that may use
membership in the list. -/
theorem chain'_imp_of_mem {α : Type _} {R S : α → α → Prop} :
    ∀ {l : List α}, (∀ a ∈ l, ∀ b ∈ l, R a b → S a b) →
      List.Chain' R l → List.Chain' S l := by
  intro l
  induction l with
  | nil => intro _ _; exact List.chain'_nil
  | cons x xs ih =>
    intro himp hch
    rw [List.chain'_cons'] at hch ⊢
    refine ⟨?_, ih (fun a ha b hb hr => himp a (by simp [ha]) b (by simp [hb]) hr) hch.2⟩
    intro y hy
    have hyl : y ∈ x :: xs := List.mem_cons_of_mem x (List.mem_of_mem_head? hy)
    exact himp x (by simp) y hyl (hch.1 y hy)

/-- The Boolean comparator order coincides with the spec's claimed order on
correctly scored pairs. -/
theorem scoredLE_spec (q : String) (now : Int) (a b : ScoredListing)
    (ha : a.relevanceScore = relevanceScoreScaled a.listing q now)
    (hb : b.relevanceScore = relevanceScoreScaled b.listing q now)
    (h : scoredLE a b = true) : specOrdered q now a.listing b.listing := by
  unfold scoredLE compareScored at h
  unfold specOrdered
  rw [ha, hb] at h
  by_cases hc : |relevanceScoreScaled a.listing q now
      - relevanceScoreScaled b.listing q now| < 2 * dayMs
  · rw [if_pos ((relevanceScore_abs_sub_lt_two_iff a.listing b.listing q now).mpr hc)]
    rw [if_pos hc] at h
    have h2 : b.listing.endDate - a.listing.endDate ≤ 0 := of_decide_eq_true h
    omega
  · rw [if_neg
      (fun hx => hc ((relevanceScore_abs_sub_lt_two_iff a.listing b.listing q now).mp hx))]
    rw [if_neg hc] at h
    have h2 : relevanceScoreScaled b.listing q now
        - relevanceScoreScaled a.listing q now ≤ 0 := of_decide_eq_true h
    rw [relevanceScore_le_iff]
    omega

/-- The sorted, stripped output of correctly scored pairs is adjacentwise
ordered as the spec claims. -/
theorem chain_specOrdered_aux (q : String) (now : Int) (fl : List ScoredListing)
    (hfl : ∀ sc ∈ fl, sc.relevanceScore = relevanceScoreScaled sc.listing q now) :
    List.Chain' (specOrdered q now) ((jsSort scoredLE fl).map (fun s => s.listing)) := by
  rw [List.chain'_map]
  refine chain'_imp_of_mem ?_ (chain_jsSort scoredLE scoredLE_total fl)
  intro a ha b hb hr
  exact scoredLE_spec q now a b
    (hfl a ((jsSort_perm scoredLE fl).mem_iff.mp ha))
    (hfl b ((jsSort_perm scoredLE fl).mem_iff.mp hb)) hr

/-- Claim C4, amended: every two *adjacent* listings of the scorer's output
are ordered as the claim states — descending by relevance score, except
that two scores within 2 of each other are ordered by more recent sale end
date (for non-adjacent pairs this can fail, because the comparator is not
transitive; see the counterexample) — and the spec's concrete example
holds: for query tokens "iphone 14 pro", "Apple iPhone 14 Pro 128GB" ended
today ranks strictly above "iPhone Case" ended 90 days ago. -/
theorem C4_sort_order :
    (∀ (listings : List EbayListing) (strategy query : String) (now : Int),
      ¬ strategy = "" → ¬ query = "" →
      List.Chain' (specOrdered query now)
        (filterAndSortListings listings (some strategy) (some query) now))
    ∧ filterAndSortListings [exListingB, exListingA] (some "keywords_only")
        (some "iphone 14 pro") 7776000000 = [exListingA, exListingB] := by
  constructor
  · intro listings strategy query now hs hq
    unfold filterAndSortListings
    dsimp only
    rw [if_neg (by tauto)]
    by_cases hstrat : strategy = "exact_brand_model" ∨ strategy = "brand_with_keywords"
    · rw [if_pos hstrat]
      refine chain_specOrdered_aux query now _ ?_
      intro sc hsc
      obtain ⟨l0, _, hl0⟩ := List.mem_map.mp (List.mem_of_mem_filter hsc)
      rw [← hl0]
    · rw [if_neg hstrat]
      refine chain_specOrdered_aux query now _ ?_
      intro sc hsc
      obtain ⟨l0, _, hl0⟩ := List.mem_map.mp hsc
      rw [← hl0]
  · decide

/-- Counterexample to C4 as stated: for query "aaaa bbb" the output is
`[C, A, B]` although the scores of `C` (4) and `B` (3) differ by less than
2 while `B`'s sale ended more recently than `C`'s — the claimed pairwise
ordering fails for this non-adjacent pair (the comparator is intransitive:
`A` is kept above `B` on score, `C` above `A` on recency). -/
theorem C4_counterexample :
    filterAndSortListings [cexListA, cexListB, cexListC] (some "keywords_only")
        (some "aaaa bbb") 0 = [cexListC, cexListA, cexListB]
      ∧ |relevanceScore cexListC "aaaa bbb" 0 - relevanceScore cexListB "aaaa bbb" 0| < 2
      ∧ cexListC.endDate < cexListB.endDate := by
  refine ⟨by decide, ?_, by decide⟩
  rw [relevanceScore_abs_sub_lt_two_iff]
  decide

/-- Witness for the amended C4. -/
theorem C4_sort_order_witness :
    List.Chain' (specOrdered "aaaa bbb" 0)
      (filterAndSortListings [cexListA, cexListB, cexListC] (some "keywords_only")
        (some "aaaa bbb") 0) :=
  C4_sort_order.1 [cexListA, cexListB, cexListC] "keywords_only" "aaaa bbb" 0
    (by decide) (by decide)

theorem foldl_min_le (l : List ℚ) :
    ∀ (a : ℚ), l.foldl min a ≤ a ∧ ∀ x ∈ l, l.foldl min a ≤ x := by
  induction l with
  | nil => intro a; exact ⟨le_refl a, by simp⟩
  | cons y ys ih =>
    intro a
    rw [List.foldl_cons]
    obtain ⟨h1, h1m⟩ := ih (min a y)
    refine ⟨le_trans h1 (min_le_left a y), ?_⟩
    intro x hx
    rcases List.mem_cons.mp hx with rfl | hx
    · exact le_trans h1 (min_le_right a x)
    · exact h1m x hx

theorem foldl_min_mem (l : List ℚ) :
    ∀ (a : ℚ), l.foldl min a = a ∨ l.foldl min a ∈ l := by
  induction l with
  | nil => intro a; left; rfl
  | cons y ys ih =>
    intro a
    rw [List.foldl_cons]
    rcases ih (min a y) with h | h
    · rcases le_total a y with hay | hay
      · left; rw [h, min_eq_left hay]
      · right; rw [h, min_eq_right hay]; simp
    · right; exact List.mem_cons_of_mem y h

theorem foldl_le_max (l : List ℚ) :
    ∀ (a : ℚ), a ≤ l.foldl max a ∧ ∀ x ∈ l, x ≤ l.foldl max a := by
  induction l with
  | nil => intro a; exact ⟨le_refl a, by simp⟩
  | cons y ys ih =>
    intro a
    rw [List.foldl_cons]
    obtain ⟨h1, h1m⟩ := ih (max a y)
    refine ⟨le_trans (le_max_left a y) h1, ?_⟩
    intro x hx
    rcases List.mem_cons.mp hx with rfl | hx
    · exact le_trans (le_max_right a x) h1
    · exact h1m x hx

theorem foldl_max_mem (l : List ℚ) :
    ∀ (a : ℚ), l.foldl max a = a ∨ l.foldl max a ∈ l := by
  induction l with
  | nil => intro a; left; rfl
  | cons y ys ih =>
    intro a
    rw [List.foldl_cons]
    rcases ih (max a y) with h | h
    · rcases le_total a y with hay | hay
      · right; rw [h, max_eq_right hay]; simp
      · left; rw [h, max_eq_left hay]
    · right; exact List.mem_cons_of_mem y h

/-- JavaScript `Math.min` of a non-empty price list is a member and a lower bound. -/
theorem jsMathMin_spec (l : List ℚ) (h : l ≠ []) :
    jsMathMin l ∈ l ∧ ∀ x ∈ l, jsMathMin l ≤ x := by
  match l with
  | [] => exact absurd rfl h
  | p :: ps =>
    unfold jsMathMin
    dsimp only
    constructor
    · rcases foldl_min_mem ps p with h2 | h2
      · rw [h2]; simp
      · exact List.mem_cons_of_mem p h2
    · intro x hx
      rcases List.mem_cons.mp hx with rfl | hx
      · exact (foldl_min_le ps x).1
      · exact (foldl_min_le ps p).2 x hx

/-- JavaScript `Math.max` of a non-empty price list is a member and an upper bound. -/
theorem jsMathMax_spec (l : List ℚ) (h : l ≠ []) :
    jsMathMax l ∈ l ∧ ∀ x ∈ l, x ≤ jsMathMax l := by
  match l with
  | [] => exact absurd rfl h
  | p :: ps =>
    unfold jsMathMax
    dsimp only
    constructor
    · rcases foldl_max_mem ps p with h2 | h2
      · rw [h2]; simp
      · exact List.mem_cons_of_mem p h2
    · intro x hx
      rcases List.mem_cons.mp hx with rfl | hx
      · exact (foldl_le_max ps x).1
      · exact (foldl_le_max ps p).2 x hx

/-- The price list the response builder filters is the positive-price
subset of the final listings. -/
theorem buildResponse_prices (best : List EbayListing) :
    (best.map (fun l => l.price)).filter (fun p => decide (0 < p))
      = positivePrices best := by
  unfold positivePrices
  rw [List.filter_map]
  rfl

/-- Claim C6: the price aggregation computes `averagePrice` as the mean of
the positive prices rounded to the nearest cent (`Math.round(avg*100)/100`)
and `minPrice`/`maxPrice` as minimum and maximum over the same
positive-price subset; an empty final listing set yields the `no_results`
response with all three statistics 0 and `totalFound = 0`; the division is
guarded by `prices.length > 0`, so a division by zero never occurs (the
average is 0 whenever the positive subset is empty). -/
theorem C6_price_aggregation :
    (∀ (u : String) (k : List String),
      buildResponse [] u k =
        { success := true, listings := [], averagePrice := 0, minPrice := 0, maxPrice := 0,
          totalFound := 0, searchStrategy := "no_results", searchKeywords := k,
          error := some "No matching listings found", status := 200 })
    ∧ (∀ (best : List EbayListing) (u : String) (k : List String), ¬ best = [] →
        ((buildResponse best u k).averagePrice =
            (if positivePrices best = [] then 0
              else ((jsRound ((positivePrices best).sum
                / ((positivePrices best).length : ℚ) * 100) : ℚ) / 100))
          ∧ (buildResponse best u k).minPrice
              = (if positivePrices best = [] then 0 else jsMathMin (positivePrices best))
          ∧ (buildResponse best u k).maxPrice
              = (if positivePrices best = [] then 0 else jsMathMax (positivePrices best))
          ∧ (buildResponse best u k).totalFound = best.length
          ∧ (¬ positivePrices best = [] →
              jsMathMin (positivePrices best) ∈ positivePrices best
                ∧ (∀ p ∈ positivePrices best, jsMathMin (positivePrices best) ≤ p)
                ∧ jsMathMax (positivePrices best) ∈ positivePrices best
                ∧ ∀ p ∈ positivePrices best, p ≤ jsMathMax (positivePrices best)))) := by
  constructor
  · intro u k; rfl
  · intro best u k hbest
    have hlen : ¬ best.length = 0 := by simpa using hbest
    unfold buildResponse
    rw [if_neg hlen]
    dsimp only
    rw [buildResponse_prices]
    by_cases hp : positivePrices best = []
    · rw [hp]
      have hzero : jsRound 0 = 0 := by
        unfold jsRound
        have h12 : ((0 : ℚ) + 1 / 2) = 1 / 2 := by norm_num
        rw [h12]
        refine Int.floor_eq_zero_iff.mpr ?_
        rw [Set.mem_Ico]
        constructor <;> norm_num
      refine ⟨?_, by simp, by simp, rfl, fun hx => absurd rfl hx⟩
      simp [hzero]
    · have hplen : 0 < (positivePrices best).length := by
        cases hq : positivePrices best with
        | nil => exact absurd hq hp
        | cons a l => simp [hq]
      rw [if_pos hplen, if_pos hplen, if_pos hplen, if_neg hp, if_neg hp, if_neg hp]
      refine ⟨?_, rfl, rfl, rfl, ?_⟩
      · rw [List.sum_eq_foldl]
      · intro _
        exact ⟨(jsMathMin_spec _ hp).1, (jsMathMin_spec _ hp).2,
          (jsMathMax_spec _ hp).1, (jsMathMax_spec _ hp).2⟩

/-- Witness for C6: two listings priced 10 and 12. -/
theorem C6_price_aggregation_witness :
    ¬ ([listingM1, listingM2] = ([] : List EbayListing))
      ∧ ¬ (positivePrices [listingM1, listingM2] = [])
      ∧ (buildResponse [listingM1, listingM2] "exact_brand_model" []).totalFound
          = [listingM1, listingM2].length
      ∧ jsMathMin (positivePrices [listingM1, listingM2])
          ∈ positivePrices [listingM1, listingM2] := by
  refine ⟨by decide, by decide, ?_, ?_⟩
  · exact ((C6_price_aggregation.2 [listingM1, listingM2] "exact_brand_model" []
      (by decide)).2.2.2.1)
  · exact ((C6_price_aggregation.2 [listingM1, listingM2] "exact_brand_model" []
      (by decide)).2.2.2.2 (by decide)).1

/-- Witness for C8. -/
theorem C8_strategy_failure_isolated_witness :
    fetchAllFail "keywords_only" = none
      ∧ (runStrategyStep bodyAcme1 fetchAllFail 0 {} "keywords_only").2 = false
      ∧ (POST bodyAcme1 fetchAllFail 0).response.success = true
      ∧ (POST bodyAcme1 fetchAllFail 0).response.searchStrategy = "no_results" := by
  refine ⟨rfl, ?_, ?_, ?_⟩
  · rw [(C8_strategy_failure_isolated bodyAcme1 fetchAllFail 0).1 {} "keywords_only" rfl]
  · exact ((C8_strategy_failure_isolated bodyAcme1 fetchAllFail 0).2 (by decide)
      (fun _ => rfl)).1
  · exact ((C8_strategy_failure_isolated bodyAcme1 fetchAllFail 0).2 (by decide)
      (fun _ => rfl)).2.1

end ProductSourcer
